import Mathlib

/-!
Verification development for the xray-sdk execution-tracing library.

The definitions below are a shallow embedding of the TypeScript sources:
- `src/src/reasoning/generator.ts` (the `ReasoningQueue` class: `enqueue`,
  `enqueueExecution`, `processJob`, `handleJobError`, `isRetryableError`,
  `processExecution`, `getStats`, `clear`),
- `src/src/XRay.ts` (the `XRay` tracker: `startStep`, `endStep`, `errorStep`),
- `src/src/storage/MemoryStorage.ts` (the reference `StorageProvider`),
- `src/src/types/index.ts` (the data model),
- `src/src/reasoning/config.ts` (`DEFAULT_REASONING_CONFIG`).

JavaScript machine details that matter are modelled explicitly: truthiness
of optional strings (`if (step.reasoning)`), `arr[i] || 8000` out-of-range
and falsy fallback, substring matching of error messages, and the p-queue
event loop with `setTimeout`-scheduled retries living outside the queue.
Timestamps are modelled as natural-number milliseconds.
-/

/-- Stand-in for an opaque JavaScript value (the `any`-typed `input`,
`output`, `metadata`, `finalOutcome` payloads); the queue and tracker never
inspect these beyond presence, so a tagged atom suffices. -/
structure Val where
  tag : String
deriving Repr, DecidableEq

/-- JS truthiness of an optional string field: `undefined` and the empty
string are falsy, every other string truthy (models `if (step.reasoning)`). -/
def strTruthy : Option String → Bool
  | none => false
  | some s => !(s == "")

/-- Leading-segment test on character lists (helper for substring search). -/
def charsLeading : List Char → List Char → Bool
  | [], _ => true
  | _ :: _, [] => false
  | a :: as, b :: bs => a == b && charsLeading as bs

/-- Substring occurrence of `pat` inside a character list (helper for
`String.includes`). -/
def charsContains (pat : List Char) : List Char → Bool
  | [] => charsLeading pat []
  | c :: rest => charsLeading pat (c :: rest) || charsContains pat rest

/-- Model of JavaScript `s.includes(pat)`. -/
def strContains (s pat : String) : Bool :=
  charsContains pat.toList s.toList

/-- Model of JS `v || d` on an optional number: `undefined` and `0` are
falsy and select the fallback `d`. -/
def jsOrDefault (v : Option Nat) (d : Nat) : Nat :=
  match v with
  | none => d
  | some n => if n = 0 then d else n

/-- Model of JS `arr[i] || d` (out-of-range indexing yields `undefined`). -/
def jsIndexOr (l : List Nat) (i : Nat) (d : Nat) : Nat :=
  jsOrDefault (l.get? i) d

/-- `Step` from `src/src/types/index.ts`; optional fields are `Option`s. -/
structure Step where
  name : String
  input : Option Val := none
  output : Option Val := none
  error : Option String := none
  timestamp : Option Nat := none
  startedAt : Option Nat := none
  endedAt : Option Nat := none
  durationMs : Option Int := none
  reasoning : Option String := none
  metadata : Option Val := none
deriving Repr, DecidableEq

/-- `Execution` from `src/src/types/index.ts`. -/
structure Execution where
  executionId : String
  startedAt : Nat := 0
  endedAt : Option Nat := none
  metadata : Option Val := none
  steps : List Step := []
  finalOutcome : Option Val := none
deriving Repr, DecidableEq

/-- The four job states of `ReasoningJob.status`. -/
inductive JobStatus
  | pending
  | processing
  | completed
  | failed
deriving Repr, DecidableEq

/-- `ReasoningJob` from `src/src/types/index.ts`. -/
structure ReasoningJob where
  id : String
  executionId : String
  stepName : String
  attempt : Nat
  status : JobStatus
  createdAt : Nat := 0
  startedAt : Option Nat := none
  completedAt : Option Nat := none
  error : Option String := none
  nextRetryAt : Option Nat := none
deriving Repr, DecidableEq

/-- `QueueStats` from `src/src/types/index.ts`. -/
structure QueueStats where
  pending : Nat
  processing : Nat
  completed : Nat
  failed : Nat
  totalJobs : Nat
deriving Repr, DecidableEq

/-- `ReasoningConfig` from `src/src/reasoning/config.ts`. -/
structure ReasoningConfig where
  concurrency : Nat
  maxRetries : Nat
  retryDelays : List Nat
  debug : Bool
deriving Repr, DecidableEq

/-- `DEFAULT_REASONING_CONFIG` from `src/src/reasoning/config.ts`. -/
def DEFAULT_REASONING_CONFIG : ReasoningConfig :=
  { concurrency := 3, maxRetries := 4, retryDelays := [1000, 2000, 4000, 8000], debug := false }

/-- A thrown JavaScript `Error`: its `message` and optional `code`. -/
structure JsError where
  message : String
  code : Option String := none
deriving Repr, DecidableEq

/-- The message built by `processJob` when the execution is absent. -/
def execNotFoundMsg (eid : String) : String :=
  "Execution " ++ eid ++ " not found"

/-- The message built by `processJob` when the step is absent. -/
def stepNotFoundMsg (sname eid : String) : String :=
  "Step " ++ sname ++ " not found in execution " ++ eid

/-- The storage consulted by the queue: executions keyed by `executionId`
(the `MemoryStorage` map, with its deep-copy value semantics). -/
abbrev Storage : Type := List (String × Execution)

/-- `MemoryStorage.getExecutionById`. -/
def lookupExec (st : Storage) (eid : String) : Option Execution :=
  (st.find? (fun p => p.1 == eid)).map (fun p => p.2)

/-- Set the reasoning of the first step with the given name (the JS
`steps.find(...)` returns the first match, which is then mutated). -/
def setReasoningFirst : List Step → String → String → List Step
  | [], _, _ => []
  | s :: rest, n, r =>
    if s.name == n then { s with reasoning := some r } :: rest
    else s :: setReasoningFirst rest n r

/-- Replace the stored execution under key `eid`. -/
def storageSet : Storage → String → Execution → Storage
  | [], eid, ex => [(eid, ex)]
  | p :: rest, eid, ex =>
    if p.1 == eid then (eid, ex) :: rest else p :: storageSet rest eid ex

/-- `MemoryStorage.updateStepReasoning`: throws `NotFound` when either the
execution or the named step is missing, else sets the reasoning field. -/
def updateStepReasoning (st : Storage) (eid sname r : String) : Except String Storage :=
  match lookupExec st eid with
  | none => Except.error (execNotFoundMsg eid)
  | some ex =>
    match ex.steps.find? (fun s => s.name == sname) with
    | none => Except.error (stepNotFoundMsg sname eid)
    | some _ => Except.ok (storageSet st eid { ex with steps := setReasoningFirst ex.steps sname r })

/-- The reasoning currently stored for a step (first step of that name). -/
def getStepReasoning (st : Storage) (eid sname : String) : Option String :=
  match lookupExec st eid with
  | none => none
  | some ex =>
    match ex.steps.find? (fun s => s.name == sname) with
    | none => none
    | some s => s.reasoning

/-- The fixed retryable signatures of `ReasoningQueue.isRetryableError`. -/
def retryablePatterns : List String :=
  ["ECONNRESET", "ETIMEDOUT", "ENOTFOUND", "rate_limit_exceeded",
   "service_unavailable", "timeout", "429", "503", "502"]

/-- `ReasoningQueue.isRetryableError`: the message contains a pattern as a
substring, or the error code equals a pattern. -/
def isRetryableError (e : JsError) : Bool :=
  retryablePatterns.any (fun pat => strContains e.message pat || e.code == some pat)

/-- What `handleJobError` decides to do next: either schedule a retry via
`setTimeout(delay)` or leave the job in a terminal failed state. -/
inductive RetryDecision
  | scheduled (delay : Nat)
  | terminal
deriving Repr, DecidableEq

/-- `ReasoningQueue.handleJobError`: records the error message, then either
schedules a retry (retryable error and attempts remaining; the delay is
`retryDelays[attempt-1] || 8000`) or marks the job failed. -/
def handleJobError (cfg : ReasoningConfig) (now : Nat) (job : ReasoningJob)
    (e : JsError) : ReasoningJob × RetryDecision :=
  let j := { job with error := some e.message }
  if isRetryableError e ∧ j.attempt < cfg.maxRetries then
    let delay := jsIndexOr cfg.retryDelays (j.attempt - 1) 8000
    ({ j with attempt := j.attempt + 1, status := JobStatus.pending,
              nextRetryAt := some (now + delay) },
     RetryDecision.scheduled delay)
  else
    ({ j with status := JobStatus.failed, completedAt := some now },
     RetryDecision.terminal)

/-- The outcome of one `processJob` run: the updated job, the (possibly
updated) storage, whether the generator was invoked, and the retry decision
taken on the error path (`none` when the job completed). -/
structure ProcResult where
  job : ReasoningJob
  storage : Storage
  genInvoked : Bool
  decision : Option RetryDecision
deriving DecidableEq

/-- The `catch` branch of `processJob`: delegate to `handleJobError`. -/
def errPath (cfg : ReasoningConfig) (now : Nat) (st : Storage)
    (job : ReasoningJob) (invoked : Bool) (e : JsError) : ProcResult :=
  let hd := handleJobError cfg now job e
  { job := hd.1, storage := st, genInvoked := invoked, decision := some hd.2 }

/-- One run of `ReasoningQueue.processJob`: mark processing, load the
execution, locate the step, short-circuit on existing truthy reasoning,
invoke the generator, persist the reasoning, mark completed; any thrown
error lands in `handleJobError`.  The generator oracle takes the attempt
number so per-attempt behavior can be expressed. -/
def processJobOnce (cfg : ReasoningConfig) (gen : Nat → Step → Except JsError String)
    (now : Nat) (st : Storage) (job0 : ReasoningJob) : ProcResult :=
  let job := { job0 with status := JobStatus.processing, startedAt := some now }
  match lookupExec st job.executionId with
  | none => errPath cfg now st job false { message := execNotFoundMsg job.executionId }
  | some ex =>
    match ex.steps.find? (fun s => s.name == job.stepName) with
    | none => errPath cfg now st job false { message := stepNotFoundMsg job.stepName job.executionId }
    | some step =>
      if strTruthy step.reasoning then
        { job := { job with status := JobStatus.completed, completedAt := some now },
          storage := st, genInvoked := false, decision := none }
      else
        match gen job.attempt step with
        | Except.error e => errPath cfg now st job true e
        | Except.ok r =>
          match updateStepReasoning st job.executionId job.stepName r with
          | Except.error msg => errPath cfg now st job true { message := msg }
          | Except.ok st2 =>
            { job := { job with status := JobStatus.completed, completedAt := some now },
              storage := st2, genInvoked := true, decision := none }

/-- Run one job to a terminal state, following each scheduled retry
(retries of a single job are strictly sequential in the source).  `fuel`
bounds the number of attempts; the third component counts generator
invocations.  Returns `none` only when the fuel runs out. -/
def runJob (cfg : ReasoningConfig) (gen : Nat → Step → Except JsError String)
    (now : Nat) : Nat → Storage → ReasoningJob → Nat → Option (ReasoningJob × Storage × Nat)
  | 0, _, _, _ => none
  | fuel + 1, st, job, cnt =>
    let r := processJobOnce cfg gen now st job
    let cnt2 := cnt + (if r.genInvoked then 1 else 0)
    match r.decision with
    | some (RetryDecision.scheduled _) => runJob cfg gen now fuel r.storage r.job cnt2
    | _ => some (r.job, r.storage, cnt2)

/-- A quick sanity example: a generator failing once with `ETIMEDOUT` and
then succeeding completes the job on the second attempt. -/
example :
    (runJob { DEFAULT_REASONING_CONFIG with maxRetries := 2 }
      (fun n _ => if n = 1 then Except.error { message := "ETIMEDOUT" } else Except.ok "ok")
      0 2 [("e1", { executionId := "e1", steps := [{ name := "s1" }] })]
      { id := "j", executionId := "e1", stepName := "s1", attempt := 1,
        status := JobStatus.pending } 0).map
      (fun r => (r.1.status, r.1.attempt, r.2.2)) =
    some (JobStatus.completed, 2, 2) := by
  rfl

/-- The queue's in-memory state relevant to `enqueue`: the job map (kept in
insertion order) and a counter supplying fresh `randomUUID` ids. -/
structure QState where
  jobs : List ReasoningJob
  nextId : Nat
deriving Repr, DecidableEq

/-- Model of `randomUUID()`: a fresh-id supply indexed by a counter. -/
def uuid (n : Nat) : String := "job-" ++ toString n

/-- The `ReasoningJob` record built by `ReasoningQueue.enqueue`. -/
def mkJob (jid eid sname : String) (now : Nat) : ReasoningJob :=
  { id := jid, executionId := eid, stepName := sname, attempt := 1,
    status := JobStatus.pending, createdAt := now }

/-- `ReasoningQueue.enqueue`: create a pending job with attempt 1, record
it in the map, and return its id (database mirroring is best-effort and
does not affect the in-memory state). -/
def enqueue (q : QState) (eid sname : String) (now : Nat) : QState × String :=
  let jid := uuid q.nextId
  ({ jobs := q.jobs ++ [mkJob jid eid sname now], nextId := q.nextId + 1 }, jid)

/-- The loop body of `enqueueExecution`: skip steps whose reasoning is
truthy, call `enqueue` on the rest, accumulating the returned job ids. -/
def enqStep (eid : String) (now : Nat) (acc : QState × List String) (s : Step) :
    QState × List String :=
  if strTruthy s.reasoning then acc
  else
    let r := enqueue acc.1 eid s.name now
    (r.1, acc.2 ++ [r.2])

/-- `ReasoningQueue.enqueueExecution`: load the execution (throw `NotFound`
if absent) and enqueue every step lacking truthy reasoning, in order. -/
def enqueueExecution (st : Storage) (q : QState) (eid : String) (now : Nat) :
    Except String (QState × List String) :=
  match lookupExec st eid with
  | none => Except.error (execNotFoundMsg eid)
  | some ex => Except.ok (ex.steps.foldl (enqStep eid now) (q, []))

/-- The expected jobs created for a list of step names starting from id
counter `n` (reference characterization of the `enqueueExecution` loop). -/
def mkJobs (eid : String) (now : Nat) : Nat → List String → List ReasoningJob
  | _, [] => []
  | n, sname :: rest => mkJob (uuid n) eid sname now :: mkJobs eid now (n + 1) rest

/-- `ReasoningQueue.getStats`: per-status counts over the in-memory map
plus `totalJobs` = the size of that map. -/
def getStats (jobs : List ReasoningJob) : QueueStats :=
  { pending := (jobs.filter (fun j => j.status == JobStatus.pending)).length,
    processing := (jobs.filter (fun j => j.status == JobStatus.processing)).length,
    completed := (jobs.filter (fun j => j.status == JobStatus.completed)).length,
    failed := (jobs.filter (fun j => j.status == JobStatus.failed)).length,
    totalJobs := jobs.length }

/-- Operations on the queue state that touch the in-memory job map:
`enqueue` (also reached via `enqueueExecution` and `loadPendingJobs`),
in-place status transitions performed by `processJob`, and `clear`. -/
inductive QueueOp
  | enq (eid sname : String) (t : Nat)
  | setStatus (jid : String) (st : JobStatus)
  | clearAll
deriving Repr, DecidableEq

/-- Apply one queue operation to the state. -/
def applyQueueOp (q : QState) : QueueOp → QState
  | QueueOp.enq eid sname t => (enqueue q eid sname t).1
  | QueueOp.setStatus jid s =>
    { q with jobs := q.jobs.map (fun j => if j.id == jid then { j with status := s } else j) }
  | QueueOp.clearAll => { q with jobs := [] }

/-- Run a sequence of queue operations. -/
def runQueueOps (q : QState) : List QueueOp → QState
  | [] => q
  | op :: ops => runQueueOps (applyQueueOp q op) ops

/-- The queue state at construction: empty job map. -/
def initQState : QState := { jobs := [], nextId := 0 }

/-- The number of jobs ever created by a sequence of operations (the
"total job count observed since process start" of the specification). -/
def countEnq (ops : List QueueOp) : Nat :=
  (ops.filter (fun op => match op with | QueueOp.enq _ _ _ => true | _ => false)).length

/-- The tracker state of `XRay`: the accumulating execution, the open-step
map `activeSteps`, and the `pendingReasoningSteps` list. -/
structure TrackerState where
  executionId : String
  executionStartedAt : Nat
  steps : List Step
  activeSteps : List (String × Step)
  pendingReasoningSteps : List String
deriving Repr, DecidableEq

/-- `Map.set` on the open-step association list (overwrite on same key). -/
def assocSet : List (String × Step) → String → Step → List (String × Step)
  | [], n, s => [(n, s)]
  | p :: rest, n, s =>
    if p.1 == n then (n, s) :: rest else p :: assocSet rest n s

/-- `Map.get` on the open-step association list. -/
def assocGet (l : List (String × Step)) (n : String) : Option Step :=
  (l.find? (fun p => p.1 == n)).map (fun p => p.2)

/-- `Map.delete` on the open-step association list. -/
def assocDel (l : List (String × Step)) (n : String) : List (String × Step) :=
  l.filter (fun p => p.1 != n)

/-- `XRay.startStep`: open a step with `startedAt = now`, overwriting any
open step of the same name. -/
def startStep (tr : TrackerState) (name : String) (input : Val)
    (mdata : Option Val) (t : Nat) : TrackerState :=
  let step : Step :=
    { name := name, input := some input, timestamp := some t,
      startedAt := some t, metadata := mdata }
  { tr with activeSteps := assocSet tr.activeSteps name step }

/-- The `getTime` of an optional timestamp whose presence the source
asserts with `!` (the invariant proofs show it is always present). -/
def jsTimeOpt : Option Nat → Int
  | none => 0
  | some n => (n : Int)

/-- `XRay.endStep`: no-op when the name is not open; otherwise set the
output, close the timing, append to `execution.steps`, drop from the open
map, and record the name as pending reasoning. -/
def endStep (tr : TrackerState) (name : String) (output : Val) (t : Nat) : TrackerState :=
  match assocGet tr.activeSteps name with
  | none => tr
  | some step =>
    let dur : Int := (t : Int) - jsTimeOpt step.startedAt
    let fin := { step with output := some output, endedAt := some t, durationMs := some dur, reasoning := none }
    { tr with steps := tr.steps ++ [fin], activeSteps := assocDel tr.activeSteps name, pendingReasoningSteps := tr.pendingReasoningSteps ++ [fin.name] }

/-- `XRay.errorStep`: symmetric to `endStep` with `error` set instead of
`output`. -/
def errorStep (tr : TrackerState) (name msg : String) (t : Nat) : TrackerState :=
  match assocGet tr.activeSteps name with
  | none => tr
  | some step =>
    let dur : Int := (t : Int) - jsTimeOpt step.startedAt
    let fin := { step with error := some msg, endedAt := some t, durationMs := some dur, reasoning := none }
    { tr with steps := tr.steps ++ [fin], activeSteps := assocDel tr.activeSteps name, pendingReasoningSteps := tr.pendingReasoningSteps ++ [fin.name] }

/-- One tracker call, with the wall-clock time it is made at. -/
inductive TOp
  | start (name : String) (input : Val) (t : Nat)
  | endS (name : String) (output : Val) (t : Nat)
  | errS (name : String) (msg : String) (t : Nat)
deriving Repr, DecidableEq

/-- Apply one tracker call. -/
def applyTOp (tr : TrackerState) : TOp → TrackerState
  | TOp.start n v t => startStep tr n v none t
  | TOp.endS n v t => endStep tr n v t
  | TOp.errS n m t => errorStep tr n m t

/-- Run a sequence of tracker calls. -/
def runTOps (tr : TrackerState) : List TOp → TrackerState
  | [] => tr
  | op :: ops => runTOps (applyTOp tr op) ops

/-- The tracker state built by the `XRay` constructor. -/
def initTracker (eid : String) (t : Nat) : TrackerState :=
  { executionId := eid, executionStartedAt := t, steps := [],
    activeSteps := [], pendingReasoningSteps := [] }

/-- Every `endStep`/`errorStep` call targets a currently open name (the
"matched calls" hypothesis of the spec); `startStep` is unconstrained. -/
def runnableOps (tr : TrackerState) : List TOp → Bool
  | [] => true
  | op :: ops =>
    (match op with
     | TOp.start _ _ _ => true
     | TOp.endS n _ _ => (assocGet tr.activeSteps n).isSome
     | TOp.errS n _ _ => (assocGet tr.activeSteps n).isSome) &&
    runnableOps (applyTOp tr op) ops

/-- The per-closure summary of a call sequence: for each `endStep` the
name with its output, for each `errorStep` the name with its error, in
call order (`startStep` contributes nothing). -/
def closureSummary : List TOp → List (String × Option Val × Option String)
  | [] => []
  | TOp.start _ _ _ :: ops => closureSummary ops
  | TOp.endS n v _ :: ops => (n, some v, none) :: closureSummary ops
  | TOp.errS n m _ :: ops => (n, none, some m) :: closureSummary ops

/-- The event-loop state around one `processExecution` call: the storage,
the in-memory job map, the p-queue backlog (`waiting`), the outstanding
`setTimeout` retry timers (fire time and job id), whether the awaited
`queue.onIdle()` has resolved (`returned`), and the clock. -/
structure SysState where
  storage : Storage
  jobs : List ReasoningJob
  waiting : List String
  timers : List (Nat × String)
  returned : Bool
  now : Nat
deriving DecidableEq

/-- `this.jobs.get(jobId)` over the job map. -/
def findJob (jobs : List ReasoningJob) (jid : String) : Option ReasoningJob :=
  jobs.find? (fun j => j.id == jid)

/-- Write back an updated job under its id. -/
def setJob (jobs : List ReasoningJob) (j : ReasoningJob) : List ReasoningJob :=
  jobs.map (fun x => if x.id == j.id then j else x)

/-- Scheduler events: the p-queue runs its next task (one `processJob`,
atomic here since jobs are independent), a backoff timer fires and re-adds
its job to the p-queue, or `onIdle` resolves because the p-queue is empty
(timers are invisible to the p-queue). -/
inductive SysEvent
  | runTask
  | fireTimer
  | onIdle
deriving Repr, DecidableEq

/-- Apply one scheduler event. -/
def applySysEvent (cfg : ReasoningConfig) (gen : Nat → Step → Except JsError String)
    (s : SysState) : SysEvent → SysState
  | SysEvent.runTask =>
    match s.waiting with
    | [] => s
    | jid :: rest =>
      match findJob s.jobs jid with
      | none => { s with waiting := rest }
      | some job =>
        let r := processJobOnce cfg gen s.now s.storage job
        let timers2 := match r.decision with
          | some (RetryDecision.scheduled d) => s.timers ++ [(s.now + d, r.job.id)]
          | _ => s.timers
        { s with waiting := rest, jobs := setJob s.jobs r.job,
                 storage := r.storage, timers := timers2 }
  | SysEvent.fireTimer =>
    match s.timers with
    | [] => s
    | (t, jid) :: rest =>
      { s with timers := rest, waiting := s.waiting ++ [jid], now := max s.now t }
  | SysEvent.onIdle =>
    if s.waiting.isEmpty then { s with returned := true } else s

/-- Run a schedule of events. -/
def runSys (cfg : ReasoningConfig) (gen : Nat → Step → Except JsError String)
    (s : SysState) : List SysEvent → SysState
  | [] => s
  | ev :: evs => runSys cfg gen (applySysEvent cfg gen s ev) evs

/-- A job status is terminal when the job is completed or failed. -/
def terminalStatus (st : JobStatus) : Bool :=
  st == JobStatus.completed || st == JobStatus.failed

/-- The dispatcher invariant: every job in the map is terminal, or it is
pending and owned by either the p-queue backlog or an outstanding retry
timer.  (`processing` never persists between events because a task is
atomic here.) -/
def SysInv (s : SysState) : Prop :=
  ∀ j ∈ s.jobs, terminalStatus j.status = true ∨
    (j.status = JobStatus.pending ∧
      (j.id ∈ s.waiting ∨ j.id ∈ s.timers.map (fun p => p.2)))

theorem handleJobError_keys (cfg : ReasoningConfig) (now : Nat) (job : ReasoningJob)
    (e : JsError) :
    (handleJobError cfg now job e).1.id = job.id ∧
    (handleJobError cfg now job e).1.executionId = job.executionId ∧
    (handleJobError cfg now job e).1.stepName = job.stepName := by
  dsimp only [handleJobError]
  split <;> exact ⟨rfl, rfl, rfl⟩

theorem handleJobError_cases (cfg : ReasoningConfig) (now : Nat) (job : ReasoningJob)
    (e : JsError) :
    (isRetryableError e = true ∧ job.attempt < cfg.maxRetries ∧
      (handleJobError cfg now job e).1.status = JobStatus.pending ∧
      (handleJobError cfg now job e).1.attempt = job.attempt + 1 ∧
      (handleJobError cfg now job e).2 =
        RetryDecision.scheduled (jsIndexOr cfg.retryDelays (job.attempt - 1) 8000)) ∨
    ((isRetryableError e = false ∨ cfg.maxRetries ≤ job.attempt) ∧
      (handleJobError cfg now job e).1.status = JobStatus.failed ∧
      (handleJobError cfg now job e).1.attempt = job.attempt ∧
      (handleJobError cfg now job e).2 = RetryDecision.terminal) := by
  dsimp only [handleJobError]
  by_cases h : isRetryableError e = true ∧ job.attempt < cfg.maxRetries
  · rw [if_pos h]
    exact Or.inl ⟨h.1, h.2, rfl, rfl, rfl⟩
  · rw [if_neg h]
    refine Or.inr ⟨?_, rfl, rfl, rfl⟩
    rcases Decidable.not_and_iff_or_not.mp h with h1 | h2
    · exact Or.inl (Bool.not_eq_true _ ▸ Bool.of_not_eq_true h1)
    · exact Or.inr (Nat.le_of_not_lt h2)

theorem errPath_spec (cfg : ReasoningConfig) (now : Nat) (st : Storage)
    (job : ReasoningJob) (inv : Bool) (e : JsError) :
    (∃ d, (errPath cfg now st job inv e).decision = some (RetryDecision.scheduled d) ∧
      (errPath cfg now st job inv e).job.status = JobStatus.pending ∧
      (errPath cfg now st job inv e).storage = st ∧
      (errPath cfg now st job inv e).job.attempt = job.attempt + 1 ∧
      job.attempt < cfg.maxRetries) ∨
    ((errPath cfg now st job inv e).decision = some RetryDecision.terminal ∧
      (errPath cfg now st job inv e).job.status = JobStatus.failed ∧
      (errPath cfg now st job inv e).storage = st ∧
      (errPath cfg now st job inv e).job.attempt = job.attempt) := by
  rcases handleJobError_cases cfg now job e with ⟨hr, ha, hs, hat, hd⟩ | ⟨h0, hs, hat, hd⟩
  · exact Or.inl ⟨_, congrArg some hd, hs, rfl, hat, ha⟩
  · exact Or.inr ⟨congrArg some hd, hs, rfl, hat⟩

theorem processJobOnce_keys (cfg : ReasoningConfig) (gen : Nat → Step → Except JsError String)
    (now : Nat) (st : Storage) (job : ReasoningJob) :
    (processJobOnce cfg gen now st job).job.id = job.id ∧
    (processJobOnce cfg gen now st job).job.executionId = job.executionId ∧
    (processJobOnce cfg gen now st job).job.stepName = job.stepName := by
  dsimp only [processJobOnce, errPath]
  repeat' split
  all_goals first
    | exact ⟨rfl, rfl, rfl⟩
    | exact handleJobError_keys _ _ _ _

theorem processJobOnce_spec (cfg : ReasoningConfig) (gen : Nat → Step → Except JsError String)
    (now : Nat) (st : Storage) (job : ReasoningJob) :
    ((processJobOnce cfg gen now st job).decision = none ∧
      (processJobOnce cfg gen now st job).job.status = JobStatus.completed) ∨
    (∃ d, (processJobOnce cfg gen now st job).decision = some (RetryDecision.scheduled d) ∧
      (processJobOnce cfg gen now st job).job.status = JobStatus.pending ∧
      (processJobOnce cfg gen now st job).storage = st ∧
      (processJobOnce cfg gen now st job).job.attempt = job.attempt + 1 ∧
      job.attempt < cfg.maxRetries) ∨
    ((processJobOnce cfg gen now st job).decision = some RetryDecision.terminal ∧
      (processJobOnce cfg gen now st job).job.status = JobStatus.failed ∧
      (processJobOnce cfg gen now st job).storage = st ∧
      (processJobOnce cfg gen now st job).job.attempt = job.attempt) := by
  dsimp only [processJobOnce]
  repeat' split
  all_goals first
    | exact Or.inl ⟨rfl, rfl⟩
    | exact Or.inr (errPath_spec cfg now st _ _ _)

theorem handleJobError_retry_eq (cfg : ReasoningConfig) (now : Nat) (job : ReasoningJob)
    (e : JsError) (hr : isRetryableError e = true) (ha : job.attempt < cfg.maxRetries) :
    (handleJobError cfg now job e).1.status = JobStatus.pending ∧
    (handleJobError cfg now job e).1.attempt = job.attempt + 1 ∧
    (handleJobError cfg now job e).2 =
      RetryDecision.scheduled (jsIndexOr cfg.retryDelays (job.attempt - 1) 8000) := by
  dsimp only [handleJobError]
  rw [if_pos ⟨hr, ha⟩]
  exact ⟨rfl, rfl, rfl⟩

theorem handleJobError_fail_eq (cfg : ReasoningConfig) (now : Nat) (job : ReasoningJob)
    (e : JsError) (h : ¬(isRetryableError e = true ∧ job.attempt < cfg.maxRetries)) :
    (handleJobError cfg now job e).1.status = JobStatus.failed ∧
    (handleJobError cfg now job e).1.attempt = job.attempt ∧
    (handleJobError cfg now job e).2 = RetryDecision.terminal := by
  dsimp only [handleJobError]
  rw [if_neg h]
  exact ⟨rfl, rfl, rfl⟩

theorem processJobOnce_genFail (cfg : ReasoningConfig) (gen : Nat → Step → Except JsError String)
    (now : Nat) (st : Storage) (job : ReasoningJob) (ex : Execution) (step : Step) (e : JsError)
    (hlk : lookupExec st job.executionId = some ex)
    (hf : ex.steps.find? (fun s => s.name == job.stepName) = some step)
    (hre : strTruthy step.reasoning = false)
    (hge : gen job.attempt step = Except.error e) :
    processJobOnce cfg gen now st job =
      errPath cfg now st { job with status := JobStatus.processing, startedAt := some now } true e := by
  dsimp only [processJobOnce]
  simp only [hlk, hf, hre, hge]
  rfl

theorem processJobOnce_shortCircuit (cfg : ReasoningConfig)
    (gen : Nat → Step → Except JsError String) (now : Nat) (st : Storage) (job : ReasoningJob)
    (h : strTruthy (getStepReasoning st job.executionId job.stepName) = true) :
    (processJobOnce cfg gen now st job).job.status = JobStatus.completed ∧
    (processJobOnce cfg gen now st job).genInvoked = false ∧
    (processJobOnce cfg gen now st job).decision = none ∧
    (processJobOnce cfg gen now st job).storage = st := by
  unfold getStepReasoning at h
  cases hlk : lookupExec st job.executionId with
  | none =>
    simp only [hlk, strTruthy] at h
    exact Bool.noConfusion h
  | some ex =>
    simp only [hlk] at h
    cases hf : ex.steps.find? (fun s => s.name == job.stepName) with
    | none =>
      simp only [hf, strTruthy] at h
      exact Bool.noConfusion h
    | some s =>
      simp only [hf] at h
      dsimp only [processJobOnce]
      simp only [hlk, hf, h]
      exact ⟨rfl, rfl, rfl, rfl⟩

theorem runJob_storage_of_not_completed (cfg : ReasoningConfig)
    (gen : Nat → Step → Except JsError String) (now : Nat) :
    ∀ (fuel : Nat) (st : Storage) (job : ReasoningJob) (cnt : Nat)
      (j : ReasoningJob) (st2 : Storage) (n : Nat),
      runJob cfg gen now fuel st job cnt = some (j, st2, n) →
      j.status ≠ JobStatus.completed → st2 = st
  | 0, st, job, cnt, j, st2, n, h, _ => by simp [runJob] at h
  | fuel + 1, st, job, cnt, j, st2, n, h, hne => by
    simp only [runJob] at h
    rcases processJobOnce_spec cfg gen now st job with ⟨hd, hs⟩ |
      ⟨d, hd, hs, hst, hat, hlt⟩ | ⟨hd, hs, hst, hat⟩
    · simp only [hd] at h
      cases h
      exact absurd hs hne
    · simp only [hd] at h
      rw [runJob_storage_of_not_completed cfg gen now fuel _ _ _ j st2 n h hne]
      exact hst
    · simp only [hd] at h
      cases h
      exact hst

theorem runJob_succ (cfg : ReasoningConfig) (gen : Nat → Step → Except JsError String)
    (now fuel : Nat) (st : Storage) (job : ReasoningJob) (cnt : Nat) :
    runJob cfg gen now (fuel + 1) st job cnt =
      (match (processJobOnce cfg gen now st job).decision with
       | some (RetryDecision.scheduled _) =>
         runJob cfg gen now fuel (processJobOnce cfg gen now st job).storage
           (processJobOnce cfg gen now st job).job
           (cnt + (if (processJobOnce cfg gen now st job).genInvoked then 1 else 0))
       | _ => some ((processJobOnce cfg gen now st job).job,
           (processJobOnce cfg gen now st job).storage,
           cnt + (if (processJobOnce cfg gen now st job).genInvoked then 1 else 0))) := rfl

theorem runJob_exhaust (cfg : ReasoningConfig) (gen : Nat → Step → Except JsError String)
    (now : Nat) (st : Storage) (eid sname : String) (ex : Execution) (step : Step)
    (hlk : lookupExec st eid = some ex)
    (hf : ex.steps.find? (fun s => s.name == sname) = some step)
    (hre : strTruthy step.reasoning = false)
    (hgen : ∀ n s, ∃ e, gen n s = Except.error e ∧ isRetryableError e = true) :
    ∀ (k : Nat) (job : ReasoningJob) (cnt : Nat),
      job.executionId = eid → job.stepName = sname →
      1 ≤ job.attempt → job.attempt + k = cfg.maxRetries →
      ∃ j, runJob cfg gen now (k + 1) st job cnt = some (j, st, cnt + (k + 1)) ∧
        j.status = JobStatus.failed ∧ j.attempt = cfg.maxRetries
  | 0, job, cnt, hje, hjs, h1, hk => by
    obtain ⟨e, hge, hret⟩ := hgen job.attempt step
    have hpj := processJobOnce_genFail cfg gen now st job ex step e
      (hje ▸ hlk) (hjs ▸ hf) hre hge
    have hfail := handleJobError_fail_eq cfg now
      { job with status := JobStatus.processing, startedAt := some now } e
      (by
        intro hand
        have := hand.2
        simp only at this
        omega)
    simp only [runJob, hpj]
    dsimp only [errPath]
    rw [hfail.2.2]
    refine ⟨_, rfl, hfail.1, ?_⟩
    rw [hfail.2.1]
    simpa using hk
  | k + 1, job, cnt, hje, hjs, h1, hk => by
    obtain ⟨e, hge, hret⟩ := hgen job.attempt step
    have hpj := processJobOnce_genFail cfg gen now st job ex step e
      (hje ▸ hlk) (hjs ▸ hf) hre hge
    have hlt : job.attempt < cfg.maxRetries := by omega
    have hretry := handleJobError_retry_eq cfg now
      { job with status := JobStatus.processing, startedAt := some now } e hret
      (by simpa using hlt)
    have hkeys := handleJobError_keys cfg now
      { job with status := JobStatus.processing, startedAt := some now } e
    have hrec := runJob_exhaust cfg gen now st eid sname ex step hlk hf hre hgen k
      (handleJobError cfg now { job with status := JobStatus.processing, startedAt := some now } e).1
      (cnt + 1)
      (by rw [hkeys.2.1]; exact hje)
      (by rw [hkeys.2.2]; exact hjs)
      (by rw [hretry.2.1]; omega)
      (by rw [hretry.2.1]; simp only; omega)
    obtain ⟨j, hrun, hst, hat⟩ := hrec
    refine ⟨j, ?_, hst, hat⟩
    rw [show k + 1 + 1 = (k + 1) + 1 from rfl, runJob_succ, hpj]
    dsimp only [errPath]
    rw [hretry.2.2]
    dsimp only
    have harith : cnt + (k + 1 + 1) = cnt + 1 + (k + 1) := by omega
    rw [harith]
    exact hrun

/-- A generator used where the generator is never reached. -/
def genUnit : Nat → Step → Except JsError String := fun _ _ => Except.ok "text"

/-- A generator that always fails with a retryable `ETIMEDOUT` error. -/
def genETimedOut : Nat → Step → Except JsError String :=
  fun _ _ => Except.error { message := "ETIMEDOUT" }

/-- A generator that always succeeds with a fixed non-empty string. -/
def genOk : Nat → Step → Except JsError String := fun _ _ => Except.ok "generated text"

/-- A one-step execution used in concrete runs. -/
def exOneStep : Execution := { executionId := "e1", steps := [{ name := "s1" }] }

/-- Storage holding just `exOneStep`. -/
def stOneStep : Storage := [("e1", exOneStep)]

/-- A job whose `executionId` is the string "timeout" (a valid caller-supplied id). -/
def jobTimeoutExec : ReasoningJob :=
  { id := "j1", executionId := "timeout", stepName := "s1", attempt := 1,
    status := JobStatus.pending }

/-- A plain first-attempt job for `("e1", "s1")`. -/
def jobPlain : ReasoningJob :=
  { id := "j0", executionId := "e1", stepName := "s1", attempt := 1,
    status := JobStatus.pending }

/-- C1 counterexample: with empty storage and `executionId = "timeout"`, the
Execution is missing, yet `processJob` leaves the job `pending` with a retry
scheduled after 1000 ms (the NotFound message embeds the id, and
`isRetryableError` matches the substring "timeout"), not `failed`. -/
theorem C1_counterexample :
    lookupExec [] "timeout" = none ∧
    (processJobOnce DEFAULT_REASONING_CONFIG genUnit 0 [] jobTimeoutExec).job.status =
      JobStatus.pending ∧
    (processJobOnce DEFAULT_REASONING_CONFIG genUnit 0 [] jobTimeoutExec).decision =
      some (RetryDecision.scheduled 1000) ∧
    (processJobOnce DEFAULT_REASONING_CONFIG genUnit 0 [] jobTimeoutExec).job.nextRetryAt =
      some 1000 := by
  exact ⟨rfl, by decide, by decide, by decide⟩

/-- C1 (amended): when the referenced Execution or the named Step is missing
at processing time, the job is marked `failed` with no retry scheduled and
without invoking the Generator, PROVIDED the NotFound message (which embeds
the caller-supplied `executionId`/`stepName`) does not itself match one of
the retryable-error signatures; ids embedding a signature such as "timeout"
or "429" are misclassified as transient and retried instead. -/
theorem C1_notfound_fatal (cfg : ReasoningConfig) (gen : Nat → Step → Except JsError String)
    (now : Nat) (st : Storage) (job : ReasoningJob)
    (h : (lookupExec st job.executionId = none ∧
            isRetryableError { message := execNotFoundMsg job.executionId } = false) ∨
         (∃ ex, lookupExec st job.executionId = some ex ∧
            ex.steps.find? (fun s => s.name == job.stepName) = none ∧
            isRetryableError { message := stepNotFoundMsg job.stepName job.executionId } = false)) :
    (processJobOnce cfg gen now st job).job.status = JobStatus.failed ∧
    (processJobOnce cfg gen now st job).decision = some RetryDecision.terminal ∧
    (processJobOnce cfg gen now st job).genInvoked = false := by
  rcases h with ⟨hlk, hnr⟩ | ⟨ex, hlk, hfind, hnr⟩
  · dsimp only [processJobOnce]
    simp only [hlk]
    have hfail := handleJobError_fail_eq cfg now
      { job with status := JobStatus.processing, startedAt := some now }
      { message := execNotFoundMsg job.executionId } (by simp [hnr])
    exact ⟨hfail.1, congrArg some hfail.2.2, rfl⟩
  · dsimp only [processJobOnce]
    simp only [hlk, hfind]
    have hfail := handleJobError_fail_eq cfg now
      { job with status := JobStatus.processing, startedAt := some now }
      { message := stepNotFoundMsg job.stepName job.executionId } (by simp [hnr])
    exact ⟨hfail.1, congrArg some hfail.2.2, rfl⟩

/-- C1 witness: on empty storage with the plain id "e1" the NotFound message
matches no retryable signature, and the job fails terminally. -/
theorem C1_notfound_fatal_witness :
    (lookupExec ([] : Storage) "e1" = none ∧
      isRetryableError { message := execNotFoundMsg "e1" } = false) ∧
    ((processJobOnce DEFAULT_REASONING_CONFIG genUnit 0 [] jobPlain).job.status =
        JobStatus.failed ∧
      (processJobOnce DEFAULT_REASONING_CONFIG genUnit 0 [] jobPlain).decision =
        some RetryDecision.terminal ∧
      (processJobOnce DEFAULT_REASONING_CONFIG genUnit 0 [] jobPlain).genInvoked = false) :=
  ⟨⟨rfl, by decide⟩,
    C1_notfound_fatal DEFAULT_REASONING_CONFIG genUnit 0 [] jobPlain
      (Or.inl ⟨rfl, by decide⟩)⟩

/-- The configuration used by the C2 counterexample: `maxRetries = 0`. -/
def cfgZeroRetries : ReasoningConfig :=
  { concurrency := 1, maxRetries := 0, retryDelays := [1000], debug := false }

/-- C2 counterexample: with `maxRetries = 0` and an always-retryably-failing
generator, the code still invokes the generator once and ends with
`attempt = 1`, not the zero invocations / `attempt = 0` the claim requires
at `maxRetries = 0`. -/
theorem C2_counterexample :
    isRetryableError { message := "ETIMEDOUT" } = true ∧
    genETimedOut 1 { name := "s1" } = Except.error { message := "ETIMEDOUT" } ∧
    (runJob cfgZeroRetries genETimedOut 0 1 stOneStep jobPlain 0).map
      (fun r => (r.1.status, r.1.attempt, r.2.2)) = some (JobStatus.failed, 1, 1) ∧
    cfgZeroRetries.maxRetries = 0 ∧ (1 : Nat) ≠ 0 := by
  exact ⟨by decide, rfl, by decide, rfl, by decide⟩

/-- C2 (amended): for every configuration with `maxRetries ≥ 1`, a job whose
generator fails with a retryable error on every invocation is processed with
exactly `maxRetries` generator invocations, after which the job is `failed`
with `attempt = maxRetries` (and the storage is unchanged). -/
theorem C2_retry_exhaustion (cfg : ReasoningConfig) (gen : Nat → Step → Except JsError String)
    (now : Nat) (st : Storage) (ex : Execution) (step : Step) (job : ReasoningJob)
    (hmr : 1 ≤ cfg.maxRetries)
    (hlk : lookupExec st job.executionId = some ex)
    (hf : ex.steps.find? (fun s => s.name == job.stepName) = some step)
    (hre : strTruthy step.reasoning = false)
    (hgen : ∀ n s, ∃ e, gen n s = Except.error e ∧ isRetryableError e = true)
    (hja : job.attempt = 1) :
    ∃ j, runJob cfg gen now cfg.maxRetries st job 0 = some (j, st, cfg.maxRetries) ∧
      j.status = JobStatus.failed ∧ j.attempt = cfg.maxRetries := by
  obtain ⟨j, hrun, hst, hat⟩ := runJob_exhaust cfg gen now st job.executionId job.stepName
    ex step hlk hf hre hgen (cfg.maxRetries - 1) job 0 rfl rfl (by omega) (by omega)
  refine ⟨j, ?_, hst, hat⟩
  have hm : cfg.maxRetries - 1 + 1 = cfg.maxRetries := by omega
  rw [← hm]
  simpa using hrun

/-- The configuration used by the C2 witness: `maxRetries = 3`. -/
def cfgThreeRetries : ReasoningConfig :=
  { concurrency := 1, maxRetries := 3, retryDelays := [10, 20], debug := false }

/-- C2 witness: `maxRetries = 3` with an always-`ETIMEDOUT` generator gives
three invocations and a failed job with `attempt = 3`. -/
theorem C2_retry_exhaustion_witness :
    (1 ≤ cfgThreeRetries.maxRetries ∧
      lookupExec stOneStep jobPlain.executionId = some exOneStep ∧
      exOneStep.steps.find? (fun s => s.name == jobPlain.stepName) = some { name := "s1" } ∧
      strTruthy (Step.reasoning { name := "s1" }) = false ∧
      jobPlain.attempt = 1) ∧
    (∃ j, runJob cfgThreeRetries genETimedOut 0 cfgThreeRetries.maxRetries stOneStep jobPlain 0 =
        some (j, stOneStep, cfgThreeRetries.maxRetries) ∧
      j.status = JobStatus.failed ∧ j.attempt = cfgThreeRetries.maxRetries) :=
  ⟨⟨by decide, by decide, by decide, by decide, rfl⟩,
    C2_retry_exhaustion cfgThreeRetries genETimedOut 0 stOneStep exOneStep { name := "s1" }
      jobPlain (by decide) (by decide) (by decide) (by decide)
      (fun n s => ⟨{ message := "ETIMEDOUT" }, rfl, by decide⟩) rfl⟩

/-- The configuration used by the C4 counterexample/witness: a single
configured delay of 100 ms. -/
def cfgShortDelays : ReasoningConfig :=
  { concurrency := 1, maxRetries := 5, retryDelays := [100], debug := false }

/-- A second-attempt job for `("e1", "s1")`. -/
def jobAttempt2 : ReasoningJob :=
  { id := "j2", executionId := "e1", stepName := "s1", attempt := 2,
    status := JobStatus.pending }

/-- C4 counterexample: with `retryDelays = [100]` and a retryable failure at
`attempt = 2` (index beyond the table), the scheduled backoff is the
hardcoded 8000 ms fallback, not the last configured entry 100 ms. -/
theorem C4_counterexample :
    cfgShortDelays.retryDelays ≠ [] ∧
    cfgShortDelays.retryDelays.length < jobAttempt2.attempt ∧
    isRetryableError { message := "ETIMEDOUT" } = true ∧
    jobAttempt2.attempt < cfgShortDelays.maxRetries ∧
    (handleJobError cfgShortDelays 0 jobAttempt2 { message := "ETIMEDOUT" }).2 =
      RetryDecision.scheduled 8000 ∧
    cfgShortDelays.retryDelays.getLast? = some 100 ∧
    (8000 : Nat) ≠ 100 := by
  exact ⟨by decide, by decide, by decide, by decide, by decide, rfl, by decide⟩

/-- C4 (amended): for every retryable failure whose attempt index exceeds
the length of the configured `retryDelays` list, the backoff delay applied
before the re-submission is the hardcoded fallback of 8000 ms (which equals
the last configured entry only when that entry happens to be 8000, as in
the default configuration). -/
theorem C4_overflow_delay (cfg : ReasoningConfig) (now : Nat) (job : ReasoningJob) (e : JsError)
    (hr : isRetryableError e = true)
    (ha : job.attempt < cfg.maxRetries)
    (hlen : cfg.retryDelays.length ≤ job.attempt - 1) :
    (handleJobError cfg now job e).2 = RetryDecision.scheduled 8000 := by
  have h := handleJobError_retry_eq cfg now job e hr ha
  rw [h.2.2]
  have hnone : cfg.retryDelays.get? (job.attempt - 1) = none := by
    rw [List.get?_eq_none]
    exact hlen
  unfold jsIndexOr
  rw [hnone]
  rfl

/-- C4 witness: the amended claim at `retryDelays = [100]`, `attempt = 2`. -/
theorem C4_overflow_delay_witness :
    (isRetryableError { message := "ETIMEDOUT" } = true ∧
      jobAttempt2.attempt < cfgShortDelays.maxRetries ∧
      cfgShortDelays.retryDelays.length ≤ jobAttempt2.attempt - 1) ∧
    (handleJobError cfgShortDelays 0 jobAttempt2 { message := "ETIMEDOUT" }).2 =
      RetryDecision.scheduled 8000 :=
  ⟨⟨by decide, by decide, by decide⟩,
    C4_overflow_delay cfgShortDelays 0 jobAttempt2 { message := "ETIMEDOUT" }
      (by decide) (by decide) (by decide)⟩

/-- C5: if `enqueue` created two jobs for the same `(executionId, stepName)`
and the step's stored reasoning is non-empty (truthy) by the time the second
job is processed, then the first job ended `completed`, and processing the
second job completes it immediately without invoking the Generator and
without scheduling anything. -/
theorem C5_idempotent_shortCircuit (cfg : ReasoningConfig)
    (gen : Nat → Step → Except JsError String) (now now2 : Nat) (st : Storage)
    (job1 job2 : ReasoningJob) (fuel : Nat) (j1 : ReasoningJob) (st1 : Storage) (n1 : Nat)
    (heid : job2.executionId = job1.executionId) (hsn : job2.stepName = job1.stepName)
    (hrun : runJob cfg gen now fuel st job1 0 = some (j1, st1, n1))
    (htr : strTruthy (getStepReasoning st1 job1.executionId job1.stepName) = true) :
    j1.status = JobStatus.completed ∧
    (processJobOnce cfg gen now2 st1 job2).job.status = JobStatus.completed ∧
    (processJobOnce cfg gen now2 st1 job2).genInvoked = false ∧
    (processJobOnce cfg gen now2 st1 job2).decision = none := by
  have h2 := processJobOnce_shortCircuit cfg gen now2 st1 job2 (by rw [heid, hsn]; exact htr)
  refine ⟨?_, h2.1, h2.2.1, h2.2.2.1⟩
  by_contra hne
  have hst : st1 = st :=
    runJob_storage_of_not_completed cfg gen now fuel st job1 0 j1 st1 n1 hrun hne
  subst hst
  have h1 := processJobOnce_shortCircuit cfg gen now st1 job1 htr
  cases fuel with
  | zero => simp [runJob] at hrun
  | succ fuel =>
    rw [runJob_succ, h1.2.2.1] at hrun
    simp only [Option.some.injEq, Prod.mk.injEq] at hrun
    exact hne (hrun.1 ▸ h1.1)

/-- The first C5 witness job. -/
def jobA : ReasoningJob :=
  { id := "jA", executionId := "e1", stepName := "s1", attempt := 1,
    status := JobStatus.pending }

/-- The second C5 witness job, targeting the same execution and step. -/
def jobB : ReasoningJob :=
  { id := "jB", executionId := "e1", stepName := "s1", attempt := 1,
    status := JobStatus.pending }

/-- The job record produced by running `jobA` to completion. -/
def c5J1 : ReasoningJob :=
  ((runJob DEFAULT_REASONING_CONFIG genOk 0 1 stOneStep jobA 0).getD
    (jobA, stOneStep, 0)).1

/-- The storage produced by running `jobA` to completion. -/
def c5St1 : Storage :=
  ((runJob DEFAULT_REASONING_CONFIG genOk 0 1 stOneStep jobA 0).getD
    (jobA, stOneStep, 0)).2.1

/-- C5 witness: after the first job writes reasoning "generated text", the
second job short-circuits to completed without a generator call. -/
theorem C5_idempotent_shortCircuit_witness :
    (jobB.executionId = jobA.executionId ∧ jobB.stepName = jobA.stepName ∧
      runJob DEFAULT_REASONING_CONFIG genOk 0 1 stOneStep jobA 0 = some (c5J1, c5St1, 1) ∧
      strTruthy (getStepReasoning c5St1 jobA.executionId jobA.stepName) = true) ∧
    (c5J1.status = JobStatus.completed ∧
      (processJobOnce DEFAULT_REASONING_CONFIG genOk 7 c5St1 jobB).job.status =
        JobStatus.completed ∧
      (processJobOnce DEFAULT_REASONING_CONFIG genOk 7 c5St1 jobB).genInvoked = false ∧
      (processJobOnce DEFAULT_REASONING_CONFIG genOk 7 c5St1 jobB).decision = none) :=
  ⟨⟨rfl, rfl, by decide, by decide⟩,
    C5_idempotent_shortCircuit DEFAULT_REASONING_CONFIG genOk 0 7 stOneStep jobA jobB 1
      c5J1 c5St1 1 rfl rfl (by decide) (by decide)⟩

/-- C10: the four per-status counts returned by `getStats` partition the
in-memory job map — their sum equals `totalJobs` — because every stored job
has exactly one of the four statuses. -/
theorem C10_stats_partition (jobs : List ReasoningJob) :
    (getStats jobs).pending + (getStats jobs).processing + (getStats jobs).completed +
      (getStats jobs).failed = (getStats jobs).totalJobs := by
  simp only [getStats]
  induction jobs with
  | nil => rfl
  | cons j rest ih =>
    cases h : j.status <;> simp [List.filter_cons, h] <;> omega

theorem runQueueOps_length_no_clear :
    ∀ (ops : List QueueOp) (q : QState), (∀ op ∈ ops, op ≠ QueueOp.clearAll) →
      (runQueueOps q ops).jobs.length = q.jobs.length + countEnq ops
  | [], q, _ => by simp [runQueueOps, countEnq]
  | op :: ops, q, h => by
    have hop := h op (List.mem_cons_self op ops)
    have hrest : ∀ x ∈ ops, x ≠ QueueOp.clearAll :=
      fun x hx => h x (List.mem_cons_of_mem op hx)
    cases op with
    | enq eid sname t =>
      simp only [runQueueOps, applyQueueOp]
      rw [runQueueOps_length_no_clear ops _ hrest]
      simp [enqueue, countEnq, List.filter_cons]
      omega
    | setStatus jid s =>
      simp only [runQueueOps, applyQueueOp]
      rw [runQueueOps_length_no_clear ops _ hrest]
      simp [countEnq, List.filter_cons]
    | clearAll => exact absurd rfl hop

/-- C6 counterexample: one `enqueue` followed by `clear()` leaves
`getStats().totalJobs = 0`, although one job was created since process
start — `totalJobs` counts the current map, not history. -/
theorem C6_counterexample :
    (getStats (runQueueOps initQState
      [QueueOp.enq "e1" "s1" 0, QueueOp.clearAll]).jobs).totalJobs = 0 ∧
    countEnq [QueueOp.enq "e1" "s1" 0, QueueOp.clearAll] = 1 ∧
    (0 : Nat) ≠ 1 := by
  exact ⟨rfl, rfl, by decide⟩

/-- C6 (amended): `getStats` counts the jobs currently in the in-memory map
grouped by status, with `totalJobs` the size of that map; since jobs are
never evicted except by `clear()`, `totalJobs` equals the number of jobs
ever created since process start whenever `clear()` has not been called. -/
theorem C6_totalJobs (ops : List QueueOp) (h : ∀ op ∈ ops, op ≠ QueueOp.clearAll) :
    (getStats (runQueueOps initQState ops).jobs).totalJobs = countEnq ops := by
  have hlen := runQueueOps_length_no_clear ops initQState h
  simpa [getStats, initQState] using hlen

/-- The queue operations used by the C6 witness. -/
def c6ops : List QueueOp :=
  [QueueOp.enq "e1" "s1" 0, QueueOp.enq "e1" "s2" 0,
   QueueOp.setStatus "job-0" JobStatus.completed]

/-- C6 witness: two enqueues and a status transition, no clear. -/
theorem C6_totalJobs_witness :
    (∀ op ∈ c6ops, op ≠ QueueOp.clearAll) ∧
    (getStats (runQueueOps initQState c6ops).jobs).totalJobs = countEnq c6ops :=
  ⟨by decide, C6_totalJobs c6ops (by decide)⟩

theorem mkJobs_names (eid : String) (now : Nat) :
    ∀ (n : Nat) (names : List String),
      (mkJobs eid now n names).map (fun j => j.stepName) = names
  | _, [] => rfl
  | n, sname :: rest => by
    simp only [mkJobs, List.map_cons, mkJobs_names eid now (n + 1) rest]
    rfl

theorem mkJobs_length (eid : String) (now : Nat) :
    ∀ (n : Nat) (names : List String), (mkJobs eid now n names).length = names.length
  | _, [] => rfl
  | n, sname :: rest => by
    simp only [mkJobs, List.length_cons, mkJobs_length eid now (n + 1) rest]

theorem mkJobs_fields (eid : String) (now : Nat) :
    ∀ (n : Nat) (names : List String), ∀ j ∈ mkJobs eid now n names,
      j.executionId = eid ∧ j.status = JobStatus.pending ∧ j.attempt = 1
  | _, [], j, hj => absurd hj (List.not_mem_nil j)
  | n, sname :: rest, j, hj => by
    rcases List.mem_cons.mp hj with h | h
    · subst h; exact ⟨rfl, rfl, rfl⟩
    · exact mkJobs_fields eid now (n + 1) rest j h

theorem enqStep_foldl (eid : String) (now : Nat) :
    ∀ (steps : List Step) (q : QState) (ids : List String),
      steps.foldl (enqStep eid now) (q, ids) =
        ({ jobs := q.jobs ++ mkJobs eid now q.nextId
             ((steps.filter (fun s => !strTruthy s.reasoning)).map (fun s => s.name)),
           nextId := q.nextId + (steps.filter (fun s => !strTruthy s.reasoning)).length },
         ids ++ (mkJobs eid now q.nextId
           ((steps.filter (fun s => !strTruthy s.reasoning)).map (fun s => s.name))).map
             (fun j => j.id))
  | [], q, ids => by simp [mkJobs]
  | s :: rest, q, ids => by
    cases htr : strTruthy s.reasoning with
    | true =>
      have hstep : enqStep eid now (q, ids) s = (q, ids) := by simp [enqStep, htr]
      rw [List.foldl_cons, hstep, enqStep_foldl eid now rest q ids]
      simp [List.filter_cons, htr]
    | false =>
      have hstep : enqStep eid now (q, ids) s =
          ({ jobs := q.jobs ++ [mkJob (uuid q.nextId) eid s.name now],
             nextId := q.nextId + 1 }, ids ++ [uuid q.nextId]) := by
        simp [enqStep, htr, enqueue]
      rw [List.foldl_cons, hstep, enqStep_foldl eid now rest _ _]
      simp [List.filter_cons, htr, mkJobs, mkJob, Prod.mk.injEq, QState.mk.injEq]
      all_goals omega

/-- C7: `enqueueExecution` fails with the NotFound error when the execution
is absent from storage; otherwise it enqueues exactly one fresh pending
job (attempt 1) for each step lacking a truthy reasoning value, in step
order and for no other step, and returns the created job ids — the empty
list (not an error) when no step qualifies. -/
theorem C7_enqueueExecution (st : Storage) (q : QState) (eid : String) (now : Nat) :
    (lookupExec st eid = none →
      enqueueExecution st q eid now = Except.error (execNotFoundMsg eid)) ∧
    (∀ ex, lookupExec st eid = some ex →
      ∃ q2 jids, enqueueExecution st q eid now = Except.ok (q2, jids) ∧
        q2.jobs = q.jobs ++ mkJobs eid now q.nextId
          ((ex.steps.filter (fun s => !strTruthy s.reasoning)).map (fun s => s.name)) ∧
        (mkJobs eid now q.nextId
          ((ex.steps.filter (fun s => !strTruthy s.reasoning)).map (fun s => s.name))).map
            (fun j => j.stepName) =
          (ex.steps.filter (fun s => !strTruthy s.reasoning)).map (fun s => s.name) ∧
        jids = (mkJobs eid now q.nextId
          ((ex.steps.filter (fun s => !strTruthy s.reasoning)).map (fun s => s.name))).map
            (fun j => j.id) ∧
        jids.length = (ex.steps.filter (fun s => !strTruthy s.reasoning)).length ∧
        (∀ j ∈ mkJobs eid now q.nextId
            ((ex.steps.filter (fun s => !strTruthy s.reasoning)).map (fun s => s.name)),
          j.executionId = eid ∧ j.status = JobStatus.pending ∧ j.attempt = 1) ∧
        (ex.steps.filter (fun s => !strTruthy s.reasoning) = [] → jids = [])) := by
  constructor
  · intro h
    unfold enqueueExecution
    simp only [h]
  · intro ex h
    unfold enqueueExecution
    simp only [h]
    rw [enqStep_foldl eid now ex.steps q []]
    refine ⟨_, _, rfl, rfl, mkJobs_names eid now q.nextId _, by simp, ?_, ?_, ?_⟩
    · simp [mkJobs_length, List.length_map]
    · exact mkJobs_fields eid now q.nextId _
    · intro hnil
      simp [hnil, mkJobs]

/-- A two-step execution: one step already has reasoning, one lacks it. -/
def exMixed : Execution :=
  { executionId := "e2",
    steps := [{ name := "s1", reasoning := some "done" }, { name := "s2" }] }

/-- Storage for the C7 witness. -/
def stMixed : Storage := [("e2", exMixed)]

/-- C7 witness: on `exMixed` only the step lacking reasoning is enqueued;
on an absent id the call fails with the NotFound error. -/
theorem C7_enqueueExecution_witness :
    (lookupExec stMixed "missing" = none ∧
      enqueueExecution stMixed initQState "missing" 0 =
        Except.error (execNotFoundMsg "missing")) ∧
    (lookupExec stMixed "e2" = some exMixed ∧
      ∃ q2 jids, enqueueExecution stMixed initQState "e2" 0 = Except.ok (q2, jids) ∧
        q2.jobs = initQState.jobs ++ mkJobs "e2" 0 initQState.nextId
          ((exMixed.steps.filter (fun s => !strTruthy s.reasoning)).map (fun s => s.name)) ∧
        (mkJobs "e2" 0 initQState.nextId
          ((exMixed.steps.filter (fun s => !strTruthy s.reasoning)).map (fun s => s.name))).map
            (fun j => j.stepName) =
          (exMixed.steps.filter (fun s => !strTruthy s.reasoning)).map (fun s => s.name) ∧
        jids = (mkJobs "e2" 0 initQState.nextId
          ((exMixed.steps.filter (fun s => !strTruthy s.reasoning)).map (fun s => s.name))).map
            (fun j => j.id) ∧
        jids.length = (exMixed.steps.filter (fun s => !strTruthy s.reasoning)).length ∧
        (∀ j ∈ mkJobs "e2" 0 initQState.nextId
            ((exMixed.steps.filter (fun s => !strTruthy s.reasoning)).map (fun s => s.name)),
          j.executionId = "e2" ∧ j.status = JobStatus.pending ∧ j.attempt = 1) ∧
        (exMixed.steps.filter (fun s => !strTruthy s.reasoning) = [] → jids = [])) :=
  ⟨⟨rfl, (C7_enqueueExecution stMixed initQState "missing" 0).1 rfl⟩,
    ⟨rfl, (C7_enqueueExecution stMixed initQState "e2" 0).2 exMixed rfl⟩⟩


/-- The step record built by `endStep` when closing open step `s0` at time
`t` with the given output. -/
def finalizeOut (s0 : Step) (v : Val) (t : Nat) : Step :=
  { s0 with
    output := some v
    endedAt := some t
    durationMs := some ((t : Int) - jsTimeOpt s0.startedAt)
    reasoning := none }

/-- The step record built by `errorStep` when closing open step `s0` at time
`t` with the given error message. -/
def finalizeErr (s0 : Step) (m : String) (t : Nat) : Step :=
  { s0 with
    error := some m
    endedAt := some t
    durationMs := some ((t : Int) - jsTimeOpt s0.startedAt)
    reasoning := none }

/-- Invariant of the open-step map: every open step was created by
`startStep`, keyed by its own name, with its start time recorded and no
output or error yet. -/
def activeInv (l : List (String × Step)) : Prop :=
  ∀ p ∈ l, p.2.name = p.1 ∧ p.2.startedAt.isSome = true ∧
    p.2.output = none ∧ p.2.error = none

theorem assocSet_mem : ∀ (l : List (String × Step)) (n : String) (s : Step),
    ∀ p ∈ assocSet l n s, p = (n, s) ∨ p ∈ l
  | [], n, s, p, hp => by
    simp [assocSet] at hp
    exact Or.inl hp
  | (k, v) :: rest, n, s, p, hp => by
    by_cases h : (k == n) = true
    · simp only [assocSet, h, if_true] at hp
      rcases List.mem_cons.mp hp with h1 | h1
      · exact Or.inl h1
      · exact Or.inr (List.mem_cons_of_mem _ h1)
    · simp only [assocSet, h, if_false, Bool.false_eq_true] at hp
      rcases List.mem_cons.mp hp with h1 | h1
      · exact Or.inr (by rw [h1]; exact List.mem_cons_self _ _)
      · rcases assocSet_mem rest n s p h1 with h2 | h2
        · exact Or.inl h2
        · exact Or.inr (List.mem_cons_of_mem _ h2)

theorem assocGet_mem (l : List (String × Step)) (n : String) (s : Step)
    (h : assocGet l n = some s) : (n, s) ∈ l := by
  unfold assocGet at h
  cases hf : l.find? (fun p => p.1 == n) with
  | none => rw [hf] at h; cases h
  | some p =>
    rw [hf] at h
    have hps : p.2 = s := by simpa using h
    have hmem : p ∈ l := List.mem_of_find?_eq_some hf
    have hkey := List.find?_some hf
    have hk : p.1 = n := by simpa using hkey
    have hpair : (n, s) = p := by rw [← hk, ← hps]
    rw [hpair]
    exact hmem

theorem endStep_eq (tr : TrackerState) (n : String) (v : Val) (t : Nat) (s0 : Step)
    (hget : assocGet tr.activeSteps n = some s0) :
    endStep tr n v t = { tr with
      steps := tr.steps ++ [finalizeOut s0 v t],
      activeSteps := assocDel tr.activeSteps n,
      pendingReasoningSteps := tr.pendingReasoningSteps ++ [s0.name] } := by
  unfold endStep finalizeOut
  rw [hget]

theorem errorStep_eq (tr : TrackerState) (n msg : String) (t : Nat) (s0 : Step)
    (hget : assocGet tr.activeSteps n = some s0) :
    errorStep tr n msg t = { tr with
      steps := tr.steps ++ [finalizeErr s0 msg t],
      activeSteps := assocDel tr.activeSteps n,
      pendingReasoningSteps := tr.pendingReasoningSteps ++ [s0.name] } := by
  unfold errorStep finalizeErr
  rw [hget]

theorem runTOps_spec :
    ∀ (ops : List TOp) (tr : TrackerState),
      activeInv tr.activeSteps → runnableOps tr ops = true →
      ((runTOps tr ops).steps.map (fun s => (s.name, s.output, s.error)) =
        tr.steps.map (fun s => (s.name, s.output, s.error)) ++ closureSummary ops) ∧
      activeInv (runTOps tr ops).activeSteps ∧
      (∀ s ∈ (runTOps tr ops).steps, s ∈ tr.steps ∨
        ∃ a b : Nat, s.startedAt = some a ∧ s.endedAt = some b ∧
          s.durationMs = some ((b : Int) - (a : Int)))
  | [], tr, hInv, _ => ⟨by simp [runTOps, closureSummary], hInv, fun s hs => Or.inl hs⟩
  | TOp.start n v t :: ops, tr, hInv, hrun => by
    simp only [runnableOps, Bool.true_and] at hrun
    have hInv2 : activeInv (applyTOp tr (TOp.start n v t)).activeSteps := by
      intro p hp
      rcases assocSet_mem tr.activeSteps n _ p hp with h | h
      · rw [h]; exact ⟨rfl, rfl, rfl, rfl⟩
      · exact hInv p h
    obtain ⟨h1, h2, h3⟩ := runTOps_spec ops _ hInv2 hrun
    exact ⟨h1, h2, h3⟩
  | TOp.endS n v t :: ops, tr, hInv, hrun => by
    simp only [runnableOps, Bool.and_eq_true] at hrun
    obtain ⟨hc, hrest⟩ := hrun
    obtain ⟨s0, hget⟩ := Option.isSome_iff_exists.mp hc
    have hmem := assocGet_mem _ _ _ hget
    have hname : s0.name = n := (hInv (n, s0) hmem).1
    have hsome : s0.startedAt.isSome = true := (hInv (n, s0) hmem).2.1
    have herr : s0.error = none := (hInv (n, s0) hmem).2.2.2
    have happ2 : applyTOp tr (TOp.endS n v t) = { tr with
        steps := tr.steps ++ [finalizeOut s0 v t],
        activeSteps := assocDel tr.activeSteps n,
        pendingReasoningSteps := tr.pendingReasoningSteps ++ [s0.name] } :=
      endStep_eq tr n v t s0 hget
    have hInv2 : activeInv (applyTOp tr (TOp.endS n v t)).activeSteps := by
      rw [happ2]
      intro p hp
      exact hInv p (List.mem_of_mem_filter hp)
    obtain ⟨h1, h2, h3⟩ := runTOps_spec ops _ hInv2 hrest
    refine ⟨?_, h2, ?_⟩
    · show (runTOps (applyTOp tr (TOp.endS n v t)) ops).steps.map
          (fun s => (s.name, s.output, s.error)) =
        tr.steps.map (fun s => (s.name, s.output, s.error)) ++
          closureSummary (TOp.endS n v t :: ops)
      rw [h1, happ2]
      simp only [closureSummary, List.map_append]
      simp [finalizeOut, hname, herr, List.append_assoc]
    · intro s hs
      have hs0 : s ∈ (runTOps (applyTOp tr (TOp.endS n v t)) ops).steps := hs
      rcases h3 s hs0 with hs2 | hs2
      · rw [happ2] at hs2
        simp only [List.mem_append, List.mem_singleton] at hs2
        rcases hs2 with h | h
        · exact Or.inl h
        · right
          obtain ⟨a, ha⟩ := Option.isSome_iff_exists.mp hsome
          refine ⟨a, t, ?_, ?_, ?_⟩
          · rw [h]
            show s0.startedAt = some a
            exact ha
          · rw [h]
            rfl
          · rw [h]
            show some ((t : Int) - jsTimeOpt s0.startedAt) = some ((t : Int) - (a : Int))
            rw [ha]
            rfl
      · exact Or.inr hs2
  | TOp.errS n m t :: ops, tr, hInv, hrun => by
    simp only [runnableOps, Bool.and_eq_true] at hrun
    obtain ⟨hc, hrest⟩ := hrun
    obtain ⟨s0, hget⟩ := Option.isSome_iff_exists.mp hc
    have hmem := assocGet_mem _ _ _ hget
    have hname : s0.name = n := (hInv (n, s0) hmem).1
    have hsome : s0.startedAt.isSome = true := (hInv (n, s0) hmem).2.1
    have hout : s0.output = none := (hInv (n, s0) hmem).2.2.1
    have happ2 : applyTOp tr (TOp.errS n m t) = { tr with
        steps := tr.steps ++ [finalizeErr s0 m t],
        activeSteps := assocDel tr.activeSteps n,
        pendingReasoningSteps := tr.pendingReasoningSteps ++ [s0.name] } :=
      errorStep_eq tr n m t s0 hget
    have hInv2 : activeInv (applyTOp tr (TOp.errS n m t)).activeSteps := by
      rw [happ2]
      intro p hp
      exact hInv p (List.mem_of_mem_filter hp)
    obtain ⟨h1, h2, h3⟩ := runTOps_spec ops _ hInv2 hrest
    refine ⟨?_, h2, ?_⟩
    · show (runTOps (applyTOp tr (TOp.errS n m t)) ops).steps.map
          (fun s => (s.name, s.output, s.error)) =
        tr.steps.map (fun s => (s.name, s.output, s.error)) ++
          closureSummary (TOp.errS n m t :: ops)
      rw [h1, happ2]
      simp only [closureSummary, List.map_append]
      simp [finalizeErr, hname, hout, List.append_assoc]
    · intro s hs
      have hs0 : s ∈ (runTOps (applyTOp tr (TOp.errS n m t)) ops).steps := hs
      rcases h3 s hs0 with hs2 | hs2
      · rw [happ2] at hs2
        simp only [List.mem_append, List.mem_singleton] at hs2
        rcases hs2 with h | h
        · exact Or.inl h
        · right
          obtain ⟨a, ha⟩ := Option.isSome_iff_exists.mp hsome
          refine ⟨a, t, ?_, ?_, ?_⟩
          · rw [h]
            show s0.startedAt = some a
            exact ha
          · rw [h]
            rfl
          · rw [h]
            show some ((t : Int) - jsTimeOpt s0.startedAt) = some ((t : Int) - (a : Int))
            rw [ha]
            rfl
      · exact Or.inr hs2

theorem closureSummary_shape :
    ∀ (ops : List TOp), ∀ q ∈ closureSummary ops,
      (∃ v, q.2.1 = some v ∧ q.2.2 = none) ∨ (∃ m, q.2.2 = some m ∧ q.2.1 = none)
  | [], q, hq => absurd hq (List.not_mem_nil q)
  | TOp.start _ _ _ :: ops, q, hq => closureSummary_shape ops q hq
  | TOp.endS n v t :: ops, q, hq => by
    rcases List.mem_cons.mp hq with h | h
    · rw [h]; exact Or.inl ⟨v, rfl, rfl⟩
    · exact closureSummary_shape ops q h
  | TOp.errS n m t :: ops, q, hq => by
    rcases List.mem_cons.mp hq with h | h
    · rw [h]; exact Or.inr ⟨m, rfl, rfl⟩
    · exact closureSummary_shape ops q h

/-- C8: for every sequence of matched tracker calls, `Execution.steps`
lists exactly the steps closed by `endStep`/`errorStep`, in the order those
closing calls occurred, and every appended step records
`durationMs = endedAt − startedAt` exactly. -/
theorem C8_completion_order_durations (eid : String) (t0 : Nat) (ops : List TOp)
    (h : runnableOps (initTracker eid t0) ops = true) :
    ((runTOps (initTracker eid t0) ops).steps.map (fun s => s.name) =
      (closureSummary ops).map (fun p => p.1)) ∧
    (∀ s ∈ (runTOps (initTracker eid t0) ops).steps,
      ∃ a b : Nat, s.startedAt = some a ∧ s.endedAt = some b ∧
        s.durationMs = some ((b : Int) - (a : Int))) := by
  have hInv : activeInv (initTracker eid t0).activeSteps := by
    intro p hp
    exact absurd hp (List.not_mem_nil p)
  obtain ⟨h1, h2, h3⟩ := runTOps_spec ops (initTracker eid t0) hInv h
  constructor
  · have hmap := congrArg (List.map (fun q : String × Option Val × Option String => q.1)) h1
    simpa [List.map_map, Function.comp, initTracker] using hmap
  · intro s hs
    rcases h3 s hs with hmem | hnew
    · exact absurd hmem (List.not_mem_nil s)
    · exact hnew

/-- The tracker call sequence used by the C8/C9 witnesses: two opens in one
order, closes in the other order, one success and one error. -/
def c89ops : List TOp :=
  [TOp.start "a" { tag := "inA" } 10, TOp.start "b" { tag := "inB" } 12,
   TOp.endS "b" { tag := "outB" } 20, TOp.errS "a" "boom" 25]

/-- C8 witness: the steps appear in closing order ["b", "a"] with exact
durations. -/
theorem C8_completion_order_durations_witness :
    runnableOps (initTracker "e" 0) c89ops = true ∧
    (((runTOps (initTracker "e" 0) c89ops).steps.map (fun s => s.name) =
        (closureSummary c89ops).map (fun p => p.1)) ∧
      (∀ s ∈ (runTOps (initTracker "e" 0) c89ops).steps,
        ∃ a b : Nat, s.startedAt = some a ∧ s.endedAt = some b ∧
          s.durationMs = some ((b : Int) - (a : Int)))) :=
  ⟨by decide, C8_completion_order_durations "e" 0 c89ops (by decide)⟩

/-- C9: a step finalized by `endStep` carries `output = some v` and no
`error`; a step finalized by `errorStep` carries `error = some m` and no
`output` — positionally, the `(output, error)` projections of the recorded
steps equal the per-closure summary, and every recorded step has exactly
one of the two fields set. -/
theorem C9_output_error_exclusive (eid : String) (t0 : Nat) (ops : List TOp)
    (h : runnableOps (initTracker eid t0) ops = true) :
    ((runTOps (initTracker eid t0) ops).steps.map (fun s => (s.output, s.error)) =
      (closureSummary ops).map (fun p => p.2)) ∧
    (∀ s ∈ (runTOps (initTracker eid t0) ops).steps,
      ((∃ v, s.output = some v) ∧ s.error = none) ∨
      ((∃ m, s.error = some m) ∧ s.output = none)) := by
  have hInv : activeInv (initTracker eid t0).activeSteps := by
    intro p hp
    exact absurd hp (List.not_mem_nil p)
  obtain ⟨h1, h2, h3⟩ := runTOps_spec ops (initTracker eid t0) hInv h
  have hfirst : (runTOps (initTracker eid t0) ops).steps.map
      (fun s => (s.output, s.error)) = (closureSummary ops).map (fun p => p.2) := by
    have hmap := congrArg
      (List.map (fun q : String × Option Val × Option String => q.2)) h1
    simpa [List.map_map, Function.comp, initTracker] using hmap
  refine ⟨hfirst, ?_⟩
  intro s hs
  have hmem : (s.output, s.error) ∈
      (runTOps (initTracker eid t0) ops).steps.map (fun s => (s.output, s.error)) :=
    List.mem_map_of_mem _ hs
  rw [hfirst] at hmem
  obtain ⟨q, hq, hqe⟩ := List.mem_map.mp hmem
  have e1 : q.2.1 = s.output := by rw [hqe]
  have e2 : q.2.2 = s.error := by rw [hqe]
  rcases closureSummary_shape ops q hq with ⟨v, hv1, hv2⟩ | ⟨m, hm1, hm2⟩
  · exact Or.inl ⟨⟨v, e1 ▸ hv1⟩, e2 ▸ hv2⟩
  · exact Or.inr ⟨⟨m, e2 ▸ hm1⟩, e1 ▸ hm2⟩

/-- C9 witness: on the concrete call sequence, the recorded steps carry
`(output, error)` pairs matching their closing calls. -/
theorem C9_output_error_exclusive_witness :
    runnableOps (initTracker "e" 0) c89ops = true ∧
    (((runTOps (initTracker "e" 0) c89ops).steps.map (fun s => (s.output, s.error)) =
        (closureSummary c89ops).map (fun p => p.2)) ∧
      (∀ s ∈ (runTOps (initTracker "e" 0) c89ops).steps,
        ((∃ v, s.output = some v) ∧ s.error = none) ∨
        ((∃ m, s.error = some m) ∧ s.output = none))) :=
  ⟨by decide, C9_output_error_exclusive "e" 0 c89ops (by decide)⟩

theorem SysInv_mk (storage : Storage) (jobs : List ReasoningJob) (waiting : List String)
    (timers : List (Nat × String)) (returned : Bool) (now : Nat)
    (h : ∀ j ∈ jobs, terminalStatus j.status = true ∨
      (j.status = JobStatus.pending ∧
        (j.id ∈ waiting ∨ j.id ∈ timers.map (fun p => p.2)))) :
    SysInv { storage := storage, jobs := jobs, waiting := waiting,
             timers := timers, returned := returned, now := now } := h

theorem setJob_mem (jobs : List ReasoningJob) (jn j : ReasoningJob)
    (hj : j ∈ setJob jobs jn) : j = jn ∨ (j ∈ jobs ∧ j.id ≠ jn.id) := by
  unfold setJob at hj
  obtain ⟨x, hx, hfx⟩ := List.mem_map.mp hj
  by_cases hid : (x.id == jn.id) = true
  · rw [if_pos hid] at hfx
    exact Or.inl hfx.symm
  · rw [if_neg hid] at hfx
    refine Or.inr ⟨hfx ▸ hx, ?_⟩
    rw [← hfx]
    simpa using hid

theorem runTask_eq_none (cfg : ReasoningConfig) (gen : Nat → Step → Except JsError String)
    (s : SysState) (jid : String) (rest : List String)
    (hw : s.waiting = jid :: rest) (hfj : findJob s.jobs jid = none) :
    applySysEvent cfg gen s SysEvent.runTask = { s with waiting := rest } := by
  dsimp only [applySysEvent]
  rw [hw]
  simp only [hfj]

theorem runTask_eq_some (cfg : ReasoningConfig) (gen : Nat → Step → Except JsError String)
    (s : SysState) (jid : String) (rest : List String) (job : ReasoningJob)
    (hw : s.waiting = jid :: rest) (hfj : findJob s.jobs jid = some job) :
    applySysEvent cfg gen s SysEvent.runTask = { s with
      waiting := rest,
      jobs := setJob s.jobs (processJobOnce cfg gen s.now s.storage job).job,
      storage := (processJobOnce cfg gen s.now s.storage job).storage,
      timers := (match (processJobOnce cfg gen s.now s.storage job).decision with
        | some (RetryDecision.scheduled d) =>
          s.timers ++ [(s.now + d, (processJobOnce cfg gen s.now s.storage job).job.id)]
        | _ => s.timers) } := by
  dsimp only [applySysEvent]
  rw [hw]
  simp only [hfj]

theorem fireTimer_eq (cfg : ReasoningConfig) (gen : Nat → Step → Except JsError String)
    (s : SysState) (tt : Nat) (jid : String) (rest : List (Nat × String))
    (ht : s.timers = (tt, jid) :: rest) :
    applySysEvent cfg gen s SysEvent.fireTimer =
      { s with timers := rest, waiting := s.waiting ++ [jid], now := max s.now tt } := by
  dsimp only [applySysEvent]
  rw [ht]

theorem applySysEvent_inv (cfg : ReasoningConfig) (gen : Nat → Step → Except JsError String)
    (s : SysState) (ev : SysEvent) (h : SysInv s) :
    SysInv (applySysEvent cfg gen s ev) := by
  cases ev with
  | runTask =>
    cases hw : s.waiting with
    | nil =>
      have heq : applySysEvent cfg gen s SysEvent.runTask = s := by
        dsimp only [applySysEvent]
        rw [hw]
      rw [heq]
      exact h
    | cons jid rest =>
      cases hfj : findJob s.jobs jid with
      | none =>
        rw [runTask_eq_none cfg gen s jid rest hw hfj]
        apply SysInv_mk
        intro j hj
        rcases h j hj with hterm | ⟨hp, hmem⟩
        · exact Or.inl hterm
        · refine Or.inr ⟨hp, ?_⟩
          rcases hmem with hm | hm
          · rw [hw] at hm
            rcases List.mem_cons.mp hm with he | he
            · exfalso
              have hall := List.find?_eq_none.mp hfj j hj
              rw [he] at hall
              simp at hall
            · exact Or.inl he
          · exact Or.inr hm
      | some job =>
        have hjid : job.id = jid := by
          have hb := List.find?_some hfj
          simpa using hb
        have hkeys := processJobOnce_keys cfg gen s.now s.storage job
        rw [runTask_eq_some cfg gen s jid rest job hw hfj]
        rcases processJobOnce_spec cfg gen s.now s.storage job with
          ⟨hd, hst'⟩ | ⟨d, hd, hst', hsto, hat, hlt⟩ | ⟨hd, hst', hsto, hat⟩
        · apply SysInv_mk
          simp only [hd]
          intro j hj
          rcases setJob_mem s.jobs _ j hj with hje | ⟨hjm, hjne⟩
          · exact Or.inl (by rw [hje, terminalStatus, hst']; rfl)
          · rcases h j hjm with hterm | ⟨hp, hmem⟩
            · exact Or.inl hterm
            · refine Or.inr ⟨hp, ?_⟩
              rcases hmem with hm | hm
              · rw [hw] at hm
                rcases List.mem_cons.mp hm with he | he
                · exact absurd (he.trans (hjid.symm.trans hkeys.1.symm)) hjne
                · exact Or.inl he
              · exact Or.inr hm
        · apply SysInv_mk
          simp only [hd]
          intro j hj
          rcases setJob_mem s.jobs _ j hj with hje | ⟨hjm, hjne⟩
          · refine Or.inr ⟨by rw [hje]; exact hst', Or.inr ?_⟩
            rw [hje]
            simp
          · rcases h j hjm with hterm | ⟨hp, hmem⟩
            · exact Or.inl hterm
            · refine Or.inr ⟨hp, ?_⟩
              rcases hmem with hm | hm
              · rw [hw] at hm
                rcases List.mem_cons.mp hm with he | he
                · exact absurd (he.trans (hjid.symm.trans hkeys.1.symm)) hjne
                · exact Or.inl he
              · refine Or.inr ?_
                simp only [List.map_append]
                exact List.mem_append_left _ hm
        · apply SysInv_mk
          simp only [hd]
          intro j hj
          rcases setJob_mem s.jobs _ j hj with hje | ⟨hjm, hjne⟩
          · exact Or.inl (by rw [hje, terminalStatus, hst']; rfl)
          · rcases h j hjm with hterm | ⟨hp, hmem⟩
            · exact Or.inl hterm
            · refine Or.inr ⟨hp, ?_⟩
              rcases hmem with hm | hm
              · rw [hw] at hm
                rcases List.mem_cons.mp hm with he | he
                · exact absurd (he.trans (hjid.symm.trans hkeys.1.symm)) hjne
                · exact Or.inl he
              · exact Or.inr hm
  | fireTimer =>
    cases ht : s.timers with
    | nil =>
      have heq : applySysEvent cfg gen s SysEvent.fireTimer = s := by
        dsimp only [applySysEvent]
        rw [ht]
      rw [heq]
      exact h
    | cons p rest =>
      obtain ⟨tt, jid⟩ := p
      rw [fireTimer_eq cfg gen s tt jid rest ht]
      apply SysInv_mk
      intro j hj
      rcases h j hj with hterm | ⟨hp, hmem⟩
      · exact Or.inl hterm
      · refine Or.inr ⟨hp, ?_⟩
        rcases hmem with hm | hm
        · exact Or.inl (List.mem_append_left _ hm)
        · rw [ht] at hm
          simp only [List.map_cons] at hm
          rcases List.mem_cons.mp hm with he | he
          · refine Or.inl ?_
            rw [he]
            exact List.mem_append_right _ (List.mem_singleton.mpr rfl)
          · exact Or.inr he
  | onIdle =>
    by_cases hw : s.waiting.isEmpty = true
    · have heq : applySysEvent cfg gen s SysEvent.onIdle = { s with returned := true } := by
        dsimp only [applySysEvent]
        rw [if_pos hw]
      rw [heq]
      apply SysInv_mk
      intro j hj
      exact h j hj
    · have heq : applySysEvent cfg gen s SysEvent.onIdle = s := by
        dsimp only [applySysEvent]
        rw [if_neg hw]
      rw [heq]
      exact h

theorem runSys_inv (cfg : ReasoningConfig) (gen : Nat → Step → Except JsError String) :
    ∀ (evs : List SysEvent) (s : SysState), SysInv s → SysInv (runSys cfg gen s evs)
  | [], _, h => h
  | ev :: evs, s, h => runSys_inv cfg gen evs _ (applySysEvent_inv cfg gen s ev h)

/-- The configuration used by the C3 counterexample. -/
def cfgTwoRetries : ReasoningConfig :=
  { concurrency := 1, maxRetries := 2, retryDelays := [1000, 2000], debug := false }

/-- The dispatcher state right after `processExecution` has enqueued one
job and started awaiting `queue.onIdle()`. -/
def s0C3 : SysState :=
  { storage := stOneStep, jobs := [jobPlain], waiting := ["j0"], timers := [],
    returned := false, now := 0 }

/-- C3 counterexample: the job fails retryably; its retry sits in a
`setTimeout` timer, which the p-queue does not track, so `onIdle` resolves
(`processExecution` returns) while the job is still `pending` with an
outstanding retry timer. -/
theorem C3_counterexample :
    SysInv s0C3 ∧
    (runSys cfgTwoRetries genETimedOut s0C3 [SysEvent.runTask, SysEvent.onIdle]).returned =
      true ∧
    (findJob (runSys cfgTwoRetries genETimedOut s0C3
        [SysEvent.runTask, SysEvent.onIdle]).jobs "j0").map (fun j => j.status) =
      some JobStatus.pending ∧
    (runSys cfgTwoRetries genETimedOut s0C3
        [SysEvent.runTask, SysEvent.onIdle]).timers = [(1000, "j0")] := by
  refine ⟨?_, by decide, by decide, by decide⟩
  intro j hj
  rcases List.mem_singleton.mp hj with h
  rw [h]
  exact Or.inr ⟨rfl, Or.inl (List.mem_singleton.mpr rfl)⟩

/-- C3 (amended): `processExecution` returns when the p-queue becomes idle,
but a retry waiting out its backoff in a `setTimeout` timer is invisible to
the p-queue, so the call can return while a retried job is still pending
(see the counterexample).  What does hold in every reachable dispatcher
state: each job is terminal, or pending and owned by the p-queue backlog or
a retry timer; hence whenever the queue is idle and no retry timer is
outstanding, every job is completed or failed. -/
theorem C3_onIdle_terminal (cfg : ReasoningConfig)
    (gen : Nat → Step → Except JsError String) (evs : List SysEvent) (s0 : SysState)
    (h0 : SysInv s0) :
    SysInv (runSys cfg gen s0 evs) ∧
    ((runSys cfg gen s0 evs).waiting = [] → (runSys cfg gen s0 evs).timers = [] →
      ∀ j ∈ (runSys cfg gen s0 evs).jobs,
        j.status = JobStatus.completed ∨ j.status = JobStatus.failed) := by
  have hinv := runSys_inv cfg gen evs s0 h0
  refine ⟨hinv, ?_⟩
  intro hw ht j hj
  rcases hinv j hj with hterm | ⟨hp, hmem⟩
  · cases hs : j.status with
    | completed => exact Or.inl rfl
    | failed => exact Or.inr rfl
    | pending =>
      rw [hs] at hterm
      exact absurd hterm (by decide)
    | processing =>
      rw [hs] at hterm
      exact absurd hterm (by decide)
  · rcases hmem with hm | hm
    · rw [hw] at hm
      exact absurd hm (List.not_mem_nil _)
    · rw [ht] at hm
      exact absurd hm (List.not_mem_nil _)

/-- C3 witness: a generator that succeeds immediately drains the queue with
no timers, and after the events every job is terminal. -/
theorem C3_onIdle_terminal_witness :
    SysInv s0C3 ∧
    ((runSys DEFAULT_REASONING_CONFIG genOk s0C3
        [SysEvent.runTask, SysEvent.onIdle]).waiting = [] ∧
      (runSys DEFAULT_REASONING_CONFIG genOk s0C3
        [SysEvent.runTask, SysEvent.onIdle]).timers = [] ∧
      ∀ j ∈ (runSys DEFAULT_REASONING_CONFIG genOk s0C3
          [SysEvent.runTask, SysEvent.onIdle]).jobs,
        j.status = JobStatus.completed ∨ j.status = JobStatus.failed) := by
  have h0 : SysInv s0C3 := by
    intro j hj
    rcases List.mem_singleton.mp hj with h
    rw [h]
    exact Or.inr ⟨rfl, Or.inl (List.mem_singleton.mpr rfl)⟩
  refine ⟨h0, by decide, by decide, ?_⟩
  exact (C3_onIdle_terminal DEFAULT_REASONING_CONFIG genOk
    [SysEvent.runTask, SysEvent.onIdle] s0C3 h0).2 (by decide) (by decide)
